import Mathlib

/-!
# sync-kk-groups: the reconciliation functions of `main.go`

A shallow embedding of `getNamespaces`, `syncGroups`, `watchNamespaces`,
`createGroupsForNamespace` and `deleteGroupsForNamespace`.

* Go strings are Lean strings; `fmt.Sprintf("%s-%s", a, b)` is `a ++ "-" ++ b`.
* The Keycloak client (`*gocloak.GoCloak`, with the token and realm it is always
  called with) and the Kubernetes client (`*kubernetes.Clientset`) are external:
  they are records of functions over an arbitrary state, so a theorem that
  quantifies over them holds for every behaviour of the two servers.
* Every call made on a client is appended to a trace, every `log.Printf` line to
  a log; the theorems about "calls issued" are statements about the trace.
* A group returned by `GetGroups` is represented by the string its `Name`
  pointer refers to.
* `regexp.Compile` is a parameter: a function from a pattern to an error or a
  matcher.
-/

namespace SyncKK

/-! ## Strings and maps -/

/-- The group name of a namespace and a postfix: `fmt.Sprintf("%s-%s", ns, post)`. -/
def groupName (ns post : String) : String := ns ++ "-" ++ post

/-- Go's `strings.HasPrefix(s, pre)`: `s` begins with `pre`. Go compares bytes;
on UTF-8 text that is the same as comparing characters. -/
def HasPrefix (s pre : String) : Bool := pre.data.isPrefixOf s.data

/-- A Go `map[string]bool` in which only `true` is ever stored, as the list of
its keys (each key once). `mapSet m k` is `m[k] = true`. -/
def mapSet (m : List String) (k : String) : List String :=
  if k ∈ m then m else m ++ [k]

/-- The lookup `m[k]` of such a map: `false` for an absent key. -/
def mapGet (m : List String) (k : String) : Bool := decide (k ∈ m)

/-- The order in which one `for k := range m` visits the keys of a map. Go leaves
it unspecified; every key is visited exactly once. -/
structure RangeOrder where
  /-- The keys in visiting order. -/
  keys : List String → List String
  /-- The visit is a rearrangement of the keys. -/
  keys_perm : ∀ m, (keys m).Perm m

/-- Visiting the keys in insertion order. -/
def RangeOrder.insertion : RangeOrder := ⟨fun m => m, fun _ => List.Perm.refl _⟩

/-- Visiting the keys in reverse insertion order. -/
def RangeOrder.reversed : RangeOrder := ⟨fun m => m.reverse, fun m => List.reverse_perm m⟩

/-! ## The Keycloak client -/

/-- A call made on the Keycloak client. -/
inductive Call where
  | GetGroups : Call
  | CreateGroup (name : String) : Call
  | DeleteGroup (name : String) : Call
  deriving DecidableEq

/-- The three methods of `*gocloak.GoCloak` the program uses, over the state `σ`
of the identity provider. `GetGroups` returns the names of the groups or an
error, `CreateGroup` the new group's id or an error, `DeleteGroup` an error or
nothing. -/
structure GoCloak (σ : Type) where
  GetGroups : σ → Except String (List String) × σ
  CreateGroup : String → σ → Except String String × σ
  DeleteGroup : String → σ → Except String Unit × σ

/-- What a function has done so far: the provider's state, the calls made on the
client in order, and the lines logged in order. -/
structure Run (σ : Type) where
  st : σ
  calls : List Call
  logs : List String

/-- A run that has done nothing yet. -/
def Run.start {σ : Type} (s : σ) : Run σ := ⟨s, [], []⟩

/-- The call `client.GetGroups(...)`. -/
def Run.getGroups {σ : Type} (client : GoCloak σ) (r : Run σ) :
    Except String (List String) × Run σ :=
  ((client.GetGroups r.st).1,
    { r with st := (client.GetGroups r.st).2, calls := r.calls ++ [Call.GetGroups] })

/-- The call `client.CreateGroup(..., gocloak.Group{Name: &name})`. -/
def Run.createGroup {σ : Type} (client : GoCloak σ) (name : String) (r : Run σ) :
    Except String String × Run σ :=
  ((client.CreateGroup name r.st).1,
    { r with st := (client.CreateGroup name r.st).2,
             calls := r.calls ++ [Call.CreateGroup name] })

/-- The call `client.DeleteGroup(..., name)`. -/
def Run.deleteGroup {σ : Type} (client : GoCloak σ) (name : String) (r : Run σ) :
    Except String Unit × Run σ :=
  ((client.DeleteGroup name r.st).1,
    { r with st := (client.DeleteGroup name r.st).2,
             calls := r.calls ++ [Call.DeleteGroup name] })

/-- A `log.Printf` line. -/
def Run.log {σ : Type} (msg : String) (r : Run σ) : Run σ :=
  { r with logs := r.logs ++ [msg] }

/-! ## syncGroups -/

/-- The body of the inner loop of `syncGroups` (lines 63-70) for one namespace
and one postfix: the desired map and the run so far go in and come out. -/
def syncCreateStep {σ : Type} (client : GoCloak σ) (existingGroupSet : List String)
    (ns : String) (acc : List String × Run σ) (post : String) : List String × Run σ :=
  let desiredGroups := mapSet acc.1 (groupName ns post)
  if mapGet existingGroupSet (groupName ns post) then (desiredGroups, acc.2)
  else
    match Run.createGroup client (groupName ns post) acc.2 with
    | (Except.error err, r) =>
      (desiredGroups, r.log ("failed to create group " ++ groupName ns post ++ ": " ++ err))
    | (Except.ok _, r) => (desiredGroups, r)

/-- The body of the last loop of `syncGroups` (lines 75-80) for one key of the
existing map. -/
def syncDeleteStep {σ : Type} (client : GoCloak σ) (GroupsPrefix : String)
    (desiredGroups : List String) (r : Run σ) (name : String) : Run σ :=
  if HasPrefix name GroupsPrefix && !mapGet desiredGroups name then
    match Run.deleteGroup client name r with
    | (Except.error err, r1) => r1.log ("failed to delete group " ++ name ++ ": " ++ err)
    | (Except.ok _, r1) => r1
  else r

/-- The loops of lines 60-72: the desired map and the create calls. -/
def syncCreateLoop {σ : Type} (client : GoCloak σ) (existingGroupSet : List String)
    (namespaces postfixes : List String) (r : Run σ) : List String × Run σ :=
  namespaces.foldl
    (fun acc ns => postfixes.foldl (syncCreateStep client existingGroupSet ns) acc) ([], r)

/-- The function `syncGroups` (lines 49-83). The result is the returned `error`
(`none` for `nil`) and the run. -/
def syncGroups {σ : Type} (range : RangeOrder) (client : GoCloak σ)
    (namespaces postfixes : List String) (GroupsPrefix : String) (s : σ) :
    Option String × Run σ :=
  match Run.getGroups client (Run.start s) with
  | (Except.error err, r) => (some ("failed to fetch groups: " ++ err), r)
  | (Except.ok existingGroups, r) =>
    let existingGroupSet := existingGroups.foldl mapSet []
    let created := syncCreateLoop client existingGroupSet namespaces postfixes r
    (none, (range.keys existingGroupSet).foldl
      (syncDeleteStep client GroupsPrefix created.1) created.2)

/-! ## The per-namespace handlers -/

/-- The function `createGroupsForNamespace` (lines 115-141), continuing the run
`r`: one listing per postfix, a scan of the listing for the name, a create when
the scan finds nothing; a failed listing returns at once. -/
def createGroupsForNamespace {σ : Type} (client : GoCloak σ) (ns : String) :
    List String → Run σ → Run σ
  | [], r => r
  | post :: rest, r =>
    match Run.getGroups client r with
    | (Except.error err, r1) => r1.log ("failed to fetch groups: " ++ err)
    | (Except.ok groups, r1) =>
      let groupExists := groups.any (fun g => g == groupName ns post)
      if !groupExists then
        match Run.createGroup client (groupName ns post) r1 with
        | (Except.error err, r2) =>
          createGroupsForNamespace client ns rest
            (r2.log ("failed to create group " ++ groupName ns post ++ ": " ++ err))
        | (Except.ok _, r2) =>
          createGroupsForNamespace client ns rest
            (r2.log ("Created group: " ++ groupName ns post))
      else createGroupsForNamespace client ns rest r1

/-- The body of the loop of `deleteGroupsForNamespace` for one postfix. -/
def deleteStep {σ : Type} (client : GoCloak σ) (ns : String) (r : Run σ)
    (post : String) : Run σ :=
  match Run.deleteGroup client (groupName ns post) r with
  | (Except.error err, r1) =>
    r1.log ("failed to delete group " ++ groupName ns post ++ ": " ++ err)
  | (Except.ok _, r1) => r1.log ("Deleted group: " ++ groupName ns post)

/-- The function `deleteGroupsForNamespace` (lines 143-153), continuing the run `r`. -/
def deleteGroupsForNamespace {σ : Type} (client : GoCloak σ) (ns : String)
    (postfixes : List String) (r : Run σ) : Run σ :=
  postfixes.foldl (deleteStep client ns) r

/-! ## The Kubernetes client -/

/-- A namespace object: its name and its labels. -/
structure Namespace where
  Name : String
  Labels : List (String × String)

/-- The type of a watch event. -/
inductive EventType where
  | Added | Modified | Deleted | Bookmark | Error
  deriving DecidableEq

/-- A watch event on namespaces: its type (`event.Type`) and the namespace it
carries. -/
structure Event where
  Kind : EventType
  Object : Namespace

/-- A call made on the Kubernetes client. -/
inductive KubeCall where
  | List : KubeCall
  | Watch (labelSelector : String) : KubeCall
  deriving DecidableEq

/-- The two methods of `clientset.CoreV1().Namespaces()` the program uses, over
the state `κ` of the cluster. `NamespacesList` is `Namespaces().List`: the items
or an error. `NamespacesWatch` is `Namespaces().Watch`: it takes the label
selector of its `ListOptions` and returns an error or the events its channel
delivers until it is closed. -/
structure Clientset (κ : Type) where
  NamespacesList : κ → Except String (List Namespace) × κ
  NamespacesWatch : String → κ → Except String (List Event) × κ

/-- The function `getNamespaces` (lines 29-47). `Compile` is `regexp.Compile`,
returning an error or the compiled expression's `MatchString`. The result is the
returned pair (an error, or the names), the calls made on the clientset, and the
cluster state. -/
def getNamespaces {κ : Type} (Compile : String → Except String (String → Bool))
    (clientset : Clientset κ) (filter : String) (k : κ) :
    Except String (List String) × List KubeCall × κ :=
  match Compile filter with
  | Except.error err => (Except.error ("invalid filter regex: " ++ err), [], k)
  | Except.ok regex =>
    match clientset.NamespacesList k with
    | (Except.error err, k1) =>
      (Except.error ("failed to list namespaces: " ++ err), [KubeCall.List], k1)
    | (Except.ok items, k1) =>
      (Except.ok (items.foldl
        (fun namespaces ns => if regex ns.Name then namespaces ++ [ns.Name] else namespaces) []),
        [KubeCall.List], k1)

/-- The body of the event loop of `watchNamespaces` (lines 97-111) for one event. -/
def handleEvent {σ : Type} (client : GoCloak σ) (postfixes : List String)
    (r : Run σ) (event : Event) : Run σ :=
  match event.Kind with
  | EventType.Added =>
    createGroupsForNamespace client event.Object.Name postfixes
      (r.log ("Namespace added: " ++ event.Object.Name))
  | EventType.Deleted =>
    deleteGroupsForNamespace client event.Object.Name postfixes
      (r.log ("Namespace deleted: " ++ event.Object.Name))
  | EventType.Modified => r.log ("Namespace modified: " ++ event.Object.Name)
  | _ => r

/-- The function `watchNamespaces` (lines 85-113). A failed `Watch` ends the
process (`log.Fatalf`): the error result. Otherwise the events are handled one
by one, in order, until the channel is closed. The calls made on the clientset
come with the result. -/
def watchNamespaces {κ σ : Type} (clientset : Clientset κ) (namespaceFilter : String)
    (postfixes : List String) (client : GoCloak σ) (k : κ) (s : σ) :
    Except String (Run σ) × List KubeCall :=
  match clientset.NamespacesWatch namespaceFilter k with
  | (Except.error err, _) =>
    (Except.error ("failed to start watch for namespaces: " ++ err),
      [KubeCall.Watch namespaceFilter])
  | (Except.ok events, _) =>
    (Except.ok (events.foldl (handleEvent client postfixes)
      (Run.log "Watching for namespace changes..." (Run.start s))),
      [KubeCall.Watch namespaceFilter])

/-! ## Environments -/

/-- The names the loops of `syncGroups` derive, in loop order: one per pair of a
namespace and a postfix. -/
def derivedNames (namespaces postfixes : List String) : List String :=
  namespaces.flatMap (fun ns => postfixes.map (groupName ns))

/-- A client whose provider is a group directory that nothing else changes and
on which every call takes effect: `view` reads the group names off the state,
a listing returns them and changes nothing, after a create the name is there,
after a delete it is gone, and no other name comes or goes. -/
structure Directory {σ : Type} (client : GoCloak σ) (view : σ → List String) : Prop where
  getGroups : ∀ s, client.GetGroups s = (Except.ok (view s), s)
  createGroup : ∀ name s g, g ∈ view (client.CreateGroup name s).2 ↔ g = name ∨ g ∈ view s
  deleteGroup : ∀ name s g, g ∈ view (client.DeleteGroup name s).2 ↔ g ≠ name ∧ g ∈ view s

/-- A directory held as the list of its group names. Creating a name that is
there and deleting one that is not are refused and change nothing. -/
def directory : GoCloak (List String) where
  GetGroups := fun s => (Except.ok s, s)
  CreateGroup := fun name s =>
    if name ∈ s then (Except.error "409 Conflict", s) else (Except.ok name, s ++ [name])
  DeleteGroup := fun name s =>
    if name ∈ s then (Except.ok (), s.filter (fun g => g != name))
    else (Except.error "404 Not Found", s)

/-- A provider that cannot be reached: every call fails. -/
def unreachable : GoCloak Unit where
  GetGroups := fun s => (Except.error "connection refused", s)
  CreateGroup := fun _ s => (Except.error "connection refused", s)
  DeleteGroup := fun _ s => (Except.error "connection refused", s)

/-- A provider that lists a fixed set of groups and refuses every change. -/
def readOnly (groups : List String) : GoCloak Unit where
  GetGroups := fun s => (Except.ok groups, s)
  CreateGroup := fun _ s => (Except.error "403 Forbidden", s)
  DeleteGroup := fun _ s => (Except.error "403 Forbidden", s)

/-- Whether the characters `pat` occur, in a row, somewhere in a string. -/
def containsSub (pat : List Char) : List Char → Bool
  | [] => pat.isEmpty
  | c :: cs => pat.isPrefixOf (c :: cs) || containsSub pat cs

/-- A fragment of `regexp.Compile`, for examples. A pattern of letters, digits
and hyphens compiles to "the string contains the pattern", which is what Go's
unanchored `MatchString` does for such a pattern; any other pattern is refused
(Go refuses `(` too: missing closing parenthesis). -/
def literalCompile (pattern : String) : Except String (String → Bool) :=
  if pattern.data.all (fun c => c.isAlphanum || c == '-') then
    Except.ok (fun s => containsSub pattern.data s.data)
  else Except.error ("error parsing regexp: " ++ pattern)

/-- A cluster holding a fixed list of namespaces. `List` returns them all.
`Watch` with a label selector that is one label key delivers an `Added` event
for every namespace carrying that label (the events a watch starts with), and
for every namespace when the selector is empty; then the channel is closed. -/
def cluster : Clientset (List Namespace) where
  NamespacesList := fun k => (Except.ok k, k)
  NamespacesWatch := fun labelSelector k =>
    (Except.ok ((k.filter (fun n =>
        labelSelector == "" || n.Labels.any (fun l => l.1 == labelSelector))).map
      (fun n => ⟨EventType.Added, n⟩)), k)

/-- The calls on the Keycloak client of a `watchNamespaces` that did not end the
process; `none` when it did. -/
def watchedCalls {σ : Type} (out : Except String (Run σ) × List KubeCall) :
    Option (List Call) :=
  match out.1 with
  | Except.error _ => none
  | Except.ok r => some r.calls

/-! ## Lemmas on strings and maps -/

theorem mem_mapSet (m : List String) (k g : String) : g ∈ mapSet m k ↔ g ∈ m ∨ g = k := by
  unfold mapSet
  split
  · constructor
    · intro h; exact Or.inl h
    · rintro (h | h)
      · exact h
      · subst h; assumption
  · simp

theorem mem_foldl_mapSet (l : List String) :
    ∀ (m : List String) (g : String), g ∈ l.foldl mapSet m ↔ g ∈ m ∨ g ∈ l := by
  induction l with
  | nil => intro m g; simp
  | cons a l ih =>
    intro m g
    rw [List.foldl_cons, ih, mem_mapSet, List.mem_cons, or_assoc]

theorem mapGet_eq_true (m : List String) (g : String) : mapGet m g = true ↔ g ∈ m := by
  simp [mapGet]

theorem mapGet_eq_false (m : List String) (g : String) : mapGet m g = false ↔ g ∉ m := by
  simp [mapGet]

theorem mem_derivedNames (namespaces postfixes : List String) (g : String) :
    g ∈ derivedNames namespaces postfixes ↔
      ∃ ns, ns ∈ namespaces ∧ ∃ post, post ∈ postfixes ∧ g = groupName ns post := by
  simp only [derivedNames, List.mem_flatMap, List.mem_map]
  constructor
  · rintro ⟨ns, hns, post, hp, rfl⟩; exact ⟨ns, hns, post, hp, rfl⟩
  · rintro ⟨ns, hns, post, hp, rfl⟩; exact ⟨ns, hns, post, hp, rfl⟩

theorem directory_isDirectory : Directory directory (fun s => s) := by
  refine ⟨fun s => rfl, ?_, ?_⟩
  · intro name s g
    by_cases h : name ∈ s
    · simp only [directory, h, if_true]
      constructor
      · intro hg; exact Or.inr hg
      · rintro (rfl | hg)
        · exact h
        · exact hg
    · simp only [directory, h, if_false, List.mem_append, List.mem_singleton]
      exact or_comm
  · intro name s g
    by_cases h : name ∈ s
    · simp [directory, h, and_comm]
    · simp only [directory, h, if_false]
      constructor
      · intro hg; exact ⟨fun e => h (e ▸ hg), hg⟩
      · exact fun hg => hg.2

/-! ## The trace of syncGroups -/

theorem syncCreateStep_fst {σ : Type} (client : GoCloak σ) (E : List String) (ns : String)
    (acc : List String × Run σ) (post : String) :
    (syncCreateStep client E ns acc post).1 = mapSet acc.1 (groupName ns post) := by
  unfold syncCreateStep
  rcases h : (client.CreateGroup (groupName ns post) acc.2.st).1 with e | v <;>
    by_cases hE : mapGet E (groupName ns post) = true <;> simp [Run.createGroup, h, hE]

theorem syncCreateStep_calls {σ : Type} (client : GoCloak σ) (E : List String) (ns : String)
    (acc : List String × Run σ) (post : String) :
    (syncCreateStep client E ns acc post).2.calls =
      acc.2.calls ++ (if mapGet E (groupName ns post) then []
        else [Call.CreateGroup (groupName ns post)]) := by
  unfold syncCreateStep
  rcases h : (client.CreateGroup (groupName ns post) acc.2.st).1 with e | v <;>
    by_cases hE : mapGet E (groupName ns post) = true <;>
    simp [Run.createGroup, Run.log, h, hE]

theorem syncCreateStep_st {σ : Type} (client : GoCloak σ) (E : List String) (ns : String)
    (acc : List String × Run σ) (post : String) :
    (syncCreateStep client E ns acc post).2.st =
      if mapGet E (groupName ns post) then acc.2.st
      else (client.CreateGroup (groupName ns post) acc.2.st).2 := by
  unfold syncCreateStep
  rcases h : (client.CreateGroup (groupName ns post) acc.2.st).1 with e | v <;>
    by_cases hE : mapGet E (groupName ns post) = true <;>
    simp [Run.createGroup, Run.log, h, hE]

theorem syncInner_fst {σ : Type} (client : GoCloak σ) (E : List String) (ns : String) :
    ∀ (postfixes : List String) (acc : List String × Run σ),
      (postfixes.foldl (syncCreateStep client E ns) acc).1 =
        (postfixes.map (groupName ns)).foldl mapSet acc.1 := by
  intro postfixes
  induction postfixes with
  | nil => intro acc; rfl
  | cons p ps ih =>
    intro acc
    rw [List.foldl_cons, ih, syncCreateStep_fst, List.map_cons, List.foldl_cons]

theorem syncInner_calls {σ : Type} (client : GoCloak σ) (E : List String) (ns : String) :
    ∀ (postfixes : List String) (acc : List String × Run σ),
      (postfixes.foldl (syncCreateStep client E ns) acc).2.calls =
        acc.2.calls ++ (((postfixes.map (groupName ns)).filter
          (fun g => !mapGet E g)).map Call.CreateGroup) := by
  intro postfixes
  induction postfixes with
  | nil => intro acc; simp
  | cons p ps ih =>
    intro acc
    rw [List.foldl_cons, ih, syncCreateStep_calls, List.map_cons, List.filter_cons]
    by_cases hE : mapGet E (groupName ns p) = true <;> simp [hE]

theorem syncInner_view {σ : Type} (client : GoCloak σ) (view : σ → List String)
    (hd : Directory client view) (E : List String) (ns : String) (g : String) :
    ∀ (postfixes : List String) (acc : List String × Run σ),
      g ∈ view (postfixes.foldl (syncCreateStep client E ns) acc).2.st ↔
        g ∈ view acc.2.st ∨ (g ∈ postfixes.map (groupName ns) ∧ g ∉ E) := by
  intro postfixes
  induction postfixes with
  | nil => intro acc; simp
  | cons p ps ih =>
    intro acc
    rw [List.foldl_cons, ih, syncCreateStep_st, List.map_cons, List.mem_cons]
    by_cases hE : mapGet E (groupName ns p) = true
    · have hm := (mapGet_eq_true _ _).1 hE
      simp only [hE, if_true]
      constructor
      · rintro (h | ⟨h, hn⟩)
        · exact Or.inl h
        · exact Or.inr ⟨Or.inr h, hn⟩
      · rintro (h | ⟨h | h, hn⟩)
        · exact Or.inl h
        · exact absurd (h ▸ hm) hn
        · exact Or.inr ⟨h, hn⟩
    · have hm : groupName ns p ∉ E := fun h => hE ((mapGet_eq_true _ _).2 h)
      have hE' : mapGet E (groupName ns p) = false := by simpa using hE
      simp only [hE', Bool.false_eq_true, if_false, hd.createGroup]
      constructor
      · rintro ((h | h) | ⟨h, hn⟩)
        · exact Or.inr ⟨Or.inl h, h ▸ hm⟩
        · exact Or.inl h
        · exact Or.inr ⟨Or.inr h, hn⟩
      · rintro (h | ⟨h | h, hn⟩)
        · exact Or.inl (Or.inr h)
        · exact Or.inl (Or.inl h)
        · exact Or.inr ⟨h, hn⟩

theorem syncOuter_fst {σ : Type} (client : GoCloak σ) (E postfixes : List String) :
    ∀ (namespaces : List String) (acc : List String × Run σ),
      (namespaces.foldl
        (fun acc ns => postfixes.foldl (syncCreateStep client E ns) acc) acc).1 =
        (derivedNames namespaces postfixes).foldl mapSet acc.1 := by
  intro namespaces
  induction namespaces with
  | nil => intro acc; rfl
  | cons n ns ih =>
    intro acc
    rw [List.foldl_cons, ih, syncInner_fst]
    simp [derivedNames]

theorem syncOuter_calls {σ : Type} (client : GoCloak σ) (E postfixes : List String) :
    ∀ (namespaces : List String) (acc : List String × Run σ),
      (namespaces.foldl
        (fun acc ns => postfixes.foldl (syncCreateStep client E ns) acc) acc).2.calls =
        acc.2.calls ++ (((derivedNames namespaces postfixes).filter
          (fun g => !mapGet E g)).map Call.CreateGroup) := by
  intro namespaces
  induction namespaces with
  | nil => intro acc; simp [derivedNames]
  | cons n ns ih =>
    intro acc
    rw [List.foldl_cons, ih, syncInner_calls]
    simp [derivedNames]

theorem syncOuter_view {σ : Type} (client : GoCloak σ) (view : σ → List String)
    (hd : Directory client view) (E postfixes : List String) (g : String) :
    ∀ (namespaces : List String) (acc : List String × Run σ),
      g ∈ view (namespaces.foldl
        (fun acc ns => postfixes.foldl (syncCreateStep client E ns) acc) acc).2.st ↔
        g ∈ view acc.2.st ∨ (g ∈ derivedNames namespaces postfixes ∧ g ∉ E) := by
  intro namespaces
  induction namespaces with
  | nil => intro acc; simp [derivedNames]
  | cons n ns ih =>
    intro acc
    rw [List.foldl_cons, ih, syncInner_view client view hd]
    have hc : derivedNames (n :: ns) postfixes =
        postfixes.map (groupName n) ++ derivedNames ns postfixes := by
      simp [derivedNames]
    rw [hc, List.mem_append]
    tauto

theorem syncDeleteStep_calls {σ : Type} (client : GoCloak σ) (GroupsPrefix : String)
    (D : List String) (r : Run σ) (name : String) :
    (syncDeleteStep client GroupsPrefix D r name).calls =
      r.calls ++ (if HasPrefix name GroupsPrefix && !mapGet D name
        then [Call.DeleteGroup name] else []) := by
  unfold syncDeleteStep
  rcases h : (client.DeleteGroup name r.st).1 with e | v <;>
    by_cases hc : (HasPrefix name GroupsPrefix && !mapGet D name) = true <;>
    simp [Run.deleteGroup, Run.log, h, hc]

theorem syncDeleteStep_st {σ : Type} (client : GoCloak σ) (GroupsPrefix : String)
    (D : List String) (r : Run σ) (name : String) :
    (syncDeleteStep client GroupsPrefix D r name).st =
      if HasPrefix name GroupsPrefix && !mapGet D name
        then (client.DeleteGroup name r.st).2 else r.st := by
  unfold syncDeleteStep
  rcases h : (client.DeleteGroup name r.st).1 with e | v <;>
    by_cases hc : (HasPrefix name GroupsPrefix && !mapGet D name) = true <;>
    simp [Run.deleteGroup, Run.log, h, hc]

theorem syncDelete_calls {σ : Type} (client : GoCloak σ) (GroupsPrefix : String)
    (D : List String) :
    ∀ (keys : List String) (r : Run σ),
      (keys.foldl (syncDeleteStep client GroupsPrefix D) r).calls =
        r.calls ++ ((keys.filter
          (fun g => HasPrefix g GroupsPrefix && !mapGet D g)).map Call.DeleteGroup) := by
  intro keys
  induction keys with
  | nil => intro r; simp
  | cons k ks ih =>
    intro r
    rw [List.foldl_cons, ih, syncDeleteStep_calls, List.filter_cons]
    by_cases hc : (HasPrefix k GroupsPrefix && !mapGet D k) = true <;> simp [hc]

theorem syncDelete_view {σ : Type} (client : GoCloak σ) (view : σ → List String)
    (hd : Directory client view) (GroupsPrefix : String) (D : List String) (g : String) :
    ∀ (keys : List String) (r : Run σ),
      g ∈ view (keys.foldl (syncDeleteStep client GroupsPrefix D) r).st ↔
        g ∈ view r.st ∧ ¬ (g ∈ keys ∧ HasPrefix g GroupsPrefix = true ∧ g ∉ D) := by
  intro keys
  induction keys with
  | nil => intro r; simp
  | cons k ks ih =>
    intro r
    rw [List.foldl_cons, ih, syncDeleteStep_st, List.mem_cons]
    by_cases hc : (HasPrefix k GroupsPrefix && !mapGet D k) = true
    · simp only [hc, if_true, hd.deleteGroup]
      have hk : HasPrefix k GroupsPrefix = true ∧ k ∉ D := by
        simpa [mapGet] using hc
      constructor
      · rintro ⟨⟨hne, hv⟩, hn⟩
        refine ⟨hv, ?_⟩
        rintro ⟨h | h, hp, hD⟩
        · exact hne h
        · exact hn ⟨h, hp, hD⟩
      · rintro ⟨hv, hn⟩
        refine ⟨⟨?_, hv⟩, fun h => hn ⟨Or.inr h.1, h.2⟩⟩
        intro e
        exact hn ⟨Or.inl e, e ▸ hk.1, e ▸ hk.2⟩
    · have hk : ¬ (HasPrefix k GroupsPrefix = true ∧ k ∉ D) := by
        simpa [mapGet] using hc
      have hc' : (HasPrefix k GroupsPrefix && !mapGet D k) = false := by simpa using hc
      simp only [hc', Bool.false_eq_true, if_false]
      constructor
      · rintro ⟨hv, hn⟩
        refine ⟨hv, ?_⟩
        rintro ⟨h | h, hp, hD⟩
        · exact hk ⟨h ▸ hp, h ▸ hD⟩
        · exact hn ⟨h, hp, hD⟩
      · rintro ⟨hv, hn⟩
        exact ⟨hv, fun h => hn ⟨Or.inr h.1, h.2⟩⟩

theorem hasPrefix_iff (s pre : String) :
    HasPrefix s pre = true ↔ ∃ rest : String, s = pre ++ rest := by
  unfold HasPrefix
  rw [ List.isPrefixOf_iff_prefix]
  constructor
  · rintro ⟨t, ht⟩
    refine ⟨⟨t⟩, ?_⟩
    apply String.ext
    rw [String.data_append, ht]
  · rintro ⟨rest, rfl⟩
    exact ⟨rest.data, by rw [String.data_append]⟩

/-- The calls of `syncGroups` after a successful listing: the listing, one
create per derived name missing from the listing (in loop order), one delete per
key of the existing map that has the prefix and is not desired (in range order). -/
theorem syncGroups_ok {σ : Type} (range : RangeOrder) (client : GoCloak σ)
    (namespaces postfixes : List String) (GroupsPrefix : String) (s : σ)
    (existing : List String) (hlist : (client.GetGroups s).1 = Except.ok existing) :
    (syncGroups range client namespaces postfixes GroupsPrefix s).1 = none ∧
    (syncGroups range client namespaces postfixes GroupsPrefix s).2.calls =
      [Call.GetGroups] ++
      (((derivedNames namespaces postfixes).filter
          (fun g => !mapGet (existing.foldl mapSet []) g)).map Call.CreateGroup ++
       ((range.keys (existing.foldl mapSet [])).filter
          (fun g => HasPrefix g GroupsPrefix &&
            !mapGet ((derivedNames namespaces postfixes).foldl mapSet []) g)).map
          Call.DeleteGroup) := by
  simp only [syncGroups, Run.getGroups, hlist, syncCreateLoop, syncDelete_calls,
    syncOuter_calls, syncOuter_fst, Run.start]
  simp

theorem syncGroups_error {σ : Type} (range : RangeOrder) (client : GoCloak σ)
    (namespaces postfixes : List String) (GroupsPrefix : String) (s : σ)
    (err : String) (hlist : (client.GetGroups s).1 = Except.error err) :
    (syncGroups range client namespaces postfixes GroupsPrefix s).1 =
      some ("failed to fetch groups: " ++ err) ∧
    (syncGroups range client namespaces postfixes GroupsPrefix s).2.calls =
      [Call.GetGroups] := by
  simp [syncGroups, Run.getGroups, hlist, Run.start]

theorem syncGroups_create_mem {σ : Type} (range : RangeOrder) (client : GoCloak σ)
    (namespaces postfixes : List String) (GroupsPrefix : String) (s : σ)
    (existing : List String) (hlist : (client.GetGroups s).1 = Except.ok existing)
    (g : String) :
    Call.CreateGroup g ∈ (syncGroups range client namespaces postfixes GroupsPrefix s).2.calls ↔
      g ∈ derivedNames namespaces postfixes ∧ g ∉ existing := by
  rw [(syncGroups_ok range client namespaces postfixes GroupsPrefix s existing hlist).2]
  simp [mapGet, mem_foldl_mapSet]

theorem syncGroups_delete_mem {σ : Type} (range : RangeOrder) (client : GoCloak σ)
    (namespaces postfixes : List String) (GroupsPrefix : String) (s : σ)
    (existing : List String) (hlist : (client.GetGroups s).1 = Except.ok existing)
    (g : String) :
    Call.DeleteGroup g ∈ (syncGroups range client namespaces postfixes GroupsPrefix s).2.calls ↔
      g ∈ existing ∧ HasPrefix g GroupsPrefix = true ∧ g ∉ derivedNames namespaces postfixes := by
  rw [(syncGroups_ok range client namespaces postfixes GroupsPrefix s existing hlist).2]
  simp [mapGet, mem_foldl_mapSet, (range.keys_perm _).mem_iff]

/-! ## Bulk sync: which calls are issued -/

/-- C1: when the initial listing succeeds, `syncGroups` issues a delete call for
a name exactly when the name is in the listing, starts with the configured
prefix and is not one of the derived names namespace-postfix; so a name that
does not start with the prefix is never deleted, desired or not. -/
theorem syncGroups_delete_iff {σ : Type} (range : RangeOrder) (client : GoCloak σ)
    (namespaces postfixes : List String) (GroupsPrefix : String) (s : σ)
    (existing : List String) (hlist : (client.GetGroups s).1 = Except.ok existing) :
    (∀ g, Call.DeleteGroup g ∈
        (syncGroups range client namespaces postfixes GroupsPrefix s).2.calls ↔
      g ∈ existing ∧ (∃ rest : String, g = GroupsPrefix ++ rest) ∧
        ¬ ∃ ns, ns ∈ namespaces ∧ ∃ post, post ∈ postfixes ∧ g = groupName ns post) ∧
    (∀ g, (¬ ∃ rest : String, g = GroupsPrefix ++ rest) →
      Call.DeleteGroup g ∉
        (syncGroups range client namespaces postfixes GroupsPrefix s).2.calls) := by
  have key : ∀ g, Call.DeleteGroup g ∈
        (syncGroups range client namespaces postfixes GroupsPrefix s).2.calls ↔
      g ∈ existing ∧ (∃ rest : String, g = GroupsPrefix ++ rest) ∧
        ¬ ∃ ns, ns ∈ namespaces ∧ ∃ post, post ∈ postfixes ∧ g = groupName ns post := by
    intro g
    rw [syncGroups_delete_mem range client namespaces postfixes GroupsPrefix s existing hlist,
      hasPrefix_iff, mem_derivedNames]
  exact ⟨key, fun g hg hmem => hg ((key g).1 hmem).2.1⟩

/-- The two deletion scenarios of the specification, on a directory holding
`team-a-admins` and `old-prefix-stale`: with the prefix `team-` the stale group
is not deleted, with the empty prefix it is. -/
theorem syncGroups_delete_iff_witness :
    (directory.GetGroups ["team-a-admins", "old-prefix-stale"]).1 =
        Except.ok ["team-a-admins", "old-prefix-stale"] ∧
    Call.DeleteGroup "old-prefix-stale" ∉
      (syncGroups RangeOrder.insertion directory ["team-a", "team-b"] ["admins", "viewers"]
        "team-" ["team-a-admins", "old-prefix-stale"]).2.calls ∧
    Call.DeleteGroup "old-prefix-stale" ∈
      (syncGroups RangeOrder.reversed directory ["team-a", "team-b"] ["admins", "viewers"]
        "" ["team-a-admins", "old-prefix-stale"]).2.calls :=
  ⟨rfl,
   (syncGroups_delete_iff RangeOrder.insertion directory ["team-a", "team-b"]
      ["admins", "viewers"] "team-" ["team-a-admins", "old-prefix-stale"]
      ["team-a-admins", "old-prefix-stale"] rfl).2 "old-prefix-stale"
      (fun h => absurd ((hasPrefix_iff "old-prefix-stale" "team-").2 h) (by decide)),
   ((syncGroups_delete_iff RangeOrder.reversed directory ["team-a", "team-b"]
      ["admins", "viewers"] "" ["team-a-admins", "old-prefix-stale"]
      ["team-a-admins", "old-prefix-stale"] rfl).1 "old-prefix-stale").2
      ⟨by decide, ⟨"old-prefix-stale", by decide⟩, by decide⟩⟩

/-- C2: when the initial listing succeeds, the names for which `syncGroups`
issues a create call are exactly the derived names namespace-postfix that are
not in the listing; for namespaces team-a, team-b, postfixes admins, viewers and
existing groups team-a-admins, old-prefix-stale they are team-a-viewers,
team-b-admins and team-b-viewers. -/
theorem syncGroups_create_iff {σ : Type} (range : RangeOrder) (client : GoCloak σ)
    (namespaces postfixes : List String) (GroupsPrefix : String) (s : σ)
    (existing : List String) (hlist : (client.GetGroups s).1 = Except.ok existing) :
    (∀ g, Call.CreateGroup g ∈
        (syncGroups range client namespaces postfixes GroupsPrefix s).2.calls ↔
      (∃ ns, ns ∈ namespaces ∧ ∃ post, post ∈ postfixes ∧ g = groupName ns post) ∧
        g ∉ existing) ∧
    (namespaces = ["team-a", "team-b"] → postfixes = ["admins", "viewers"] →
      (∀ g, g ∈ existing ↔ g = "team-a-admins" ∨ g = "old-prefix-stale") →
      ∀ g, Call.CreateGroup g ∈
          (syncGroups range client namespaces postfixes GroupsPrefix s).2.calls ↔
        g = "team-a-viewers" ∨ g = "team-b-admins" ∨ g = "team-b-viewers") := by
  have key : ∀ g, Call.CreateGroup g ∈
        (syncGroups range client namespaces postfixes GroupsPrefix s).2.calls ↔
      (∃ ns, ns ∈ namespaces ∧ ∃ post, post ∈ postfixes ∧ g = groupName ns post) ∧
        g ∉ existing := by
    intro g
    rw [syncGroups_create_mem range client namespaces postfixes GroupsPrefix s existing hlist,
      mem_derivedNames]
  refine ⟨key, ?_⟩
  intro hn hp hex g
  rw [syncGroups_create_mem range client namespaces postfixes GroupsPrefix s existing hlist,
    hex, hn, hp]
  have hd : derivedNames ["team-a", "team-b"] ["admins", "viewers"] =
      ["team-a-admins", "team-a-viewers", "team-b-admins", "team-b-viewers"] := by decide
  rw [hd]
  simp only [List.mem_cons, List.mem_singleton, List.not_mem_nil, or_false]
  constructor
  · rintro ⟨h | h | h | h, hne⟩
    · exact absurd (Or.inl h) hne
    · exact Or.inl h
    · exact Or.inr (Or.inl h)
    · exact Or.inr (Or.inr h)
  · rintro (h | h | h) <;> subst h <;> decide

/-- The bulk-sync scenario of the specification on a directory holding
`team-a-admins` and `old-prefix-stale`. -/
theorem syncGroups_create_iff_witness :
    (directory.GetGroups ["team-a-admins", "old-prefix-stale"]).1 =
        Except.ok ["team-a-admins", "old-prefix-stale"] ∧
    (Call.CreateGroup "team-b-admins" ∈
      (syncGroups RangeOrder.insertion directory ["team-a", "team-b"] ["admins", "viewers"]
        "" ["team-a-admins", "old-prefix-stale"]).2.calls) ∧
    (Call.CreateGroup "team-a-admins" ∉
      (syncGroups RangeOrder.insertion directory ["team-a", "team-b"] ["admins", "viewers"]
        "" ["team-a-admins", "old-prefix-stale"]).2.calls) :=
  ⟨rfl,
   ((syncGroups_create_iff RangeOrder.insertion directory ["team-a", "team-b"]
      ["admins", "viewers"] "" ["team-a-admins", "old-prefix-stale"]
      ["team-a-admins", "old-prefix-stale"] rfl).2 rfl rfl (by simp) "team-b-admins").2
      (Or.inr (Or.inl rfl)),
   fun h => absurd
    (((syncGroups_create_iff RangeOrder.insertion directory ["team-a", "team-b"]
      ["admins", "viewers"] "" ["team-a-admins", "old-prefix-stale"]
      ["team-a-admins", "old-prefix-stale"] rfl).2 rfl rfl (by simp) "team-a-admins").1 h)
    (by decide)⟩

/-- C6: `syncGroups` returns an error exactly when the initial listing fails,
and then issues no create and no delete call; when the listing succeeds it
returns no error, and its return value and its calls are those of any other
client that returns the same listing, whatever the create and delete calls of
the two clients return. -/
theorem syncGroups_error_iff {σ : Type} (range : RangeOrder) (client : GoCloak σ)
    (namespaces postfixes : List String) (GroupsPrefix : String) (s : σ) :
    ((syncGroups range client namespaces postfixes GroupsPrefix s).1 ≠ none ↔
      ∃ err, (client.GetGroups s).1 = Except.error err) ∧
    ((∃ err, (client.GetGroups s).1 = Except.error err) →
      ∀ g, Call.CreateGroup g ∉
          (syncGroups range client namespaces postfixes GroupsPrefix s).2.calls ∧
        Call.DeleteGroup g ∉
          (syncGroups range client namespaces postfixes GroupsPrefix s).2.calls) ∧
    (∀ (τ : Type) (other : GoCloak τ) (t : τ),
      (other.GetGroups t).1 = (client.GetGroups s).1 →
      (syncGroups range other namespaces postfixes GroupsPrefix t).1 =
          (syncGroups range client namespaces postfixes GroupsPrefix s).1 ∧
        (syncGroups range other namespaces postfixes GroupsPrefix t).2.calls =
          (syncGroups range client namespaces postfixes GroupsPrefix s).2.calls) := by
  rcases h : (client.GetGroups s).1 with err | existing
  · have he := syncGroups_error range client namespaces postfixes GroupsPrefix s err h
    refine ⟨?_, ?_, ?_⟩
    · rw [he.1]; simp
    · intro _ g
      rw [he.2]; simp
    · intro τ other t ht
      have ho := syncGroups_error range other namespaces postfixes GroupsPrefix t err ht
      rw [ho.1, ho.2, he.1, he.2]
      exact ⟨rfl, rfl⟩
  · have hk := syncGroups_ok range client namespaces postfixes GroupsPrefix s existing h
    refine ⟨?_, ?_, ?_⟩
    · rw [hk.1]; simp
    · rintro ⟨err, herr⟩
      cases herr
    · intro τ other t ht
      have ho := syncGroups_ok range other namespaces postfixes GroupsPrefix t existing ht
      rw [ho.1, ho.2, hk.1, hk.2]
      exact ⟨rfl, rfl⟩

/-- A provider that refuses every create and delete gets the same calls as a
directory with the same listing, on which they succeed. -/
theorem syncGroups_error_iff_witness :
    (syncGroups RangeOrder.insertion (readOnly ["team-a-admins", "old-prefix-stale"])
        ["team-a", "team-b"] ["admins", "viewers"] "" ()).2.calls =
      (syncGroups RangeOrder.insertion directory
        ["team-a", "team-b"] ["admins", "viewers"] ""
        ["team-a-admins", "old-prefix-stale"]).2.calls ∧
    (syncGroups RangeOrder.insertion unreachable
        ["team-a", "team-b"] ["admins", "viewers"] "" ()).1 ≠ none :=
  ⟨((syncGroups_error_iff RangeOrder.insertion directory ["team-a", "team-b"]
      ["admins", "viewers"] "" ["team-a-admins", "old-prefix-stale"]).2.2 Unit
      (readOnly ["team-a-admins", "old-prefix-stale"]) () rfl).2,
   (syncGroups_error_iff RangeOrder.insertion unreachable ["team-a", "team-b"]
      ["admins", "viewers"] "" ()).1.2 ⟨"connection refused", rfl⟩⟩

/-- The number of create calls `syncGroups` issues for a name after a successful
listing: none when the name is in the listing, otherwise one for every pair of a
namespace and a postfix that derives it. -/
theorem syncGroups_create_count {σ : Type} (range : RangeOrder) (client : GoCloak σ)
    (namespaces postfixes : List String) (GroupsPrefix : String) (s : σ)
    (existing : List String) (hlist : (client.GetGroups s).1 = Except.ok existing)
    (g : String) :
    List.count (Call.CreateGroup g)
        (syncGroups range client namespaces postfixes GroupsPrefix s).2.calls =
      if g ∈ existing then 0 else List.count g (derivedNames namespaces postfixes) := by
  rw [(syncGroups_ok range client namespaces postfixes GroupsPrefix s existing hlist).2]
  have hinj : Function.Injective Call.CreateGroup := fun a b h => by cases h; rfl
  have hdel : ∀ l : List String, List.count (Call.CreateGroup g) (l.map Call.DeleteGroup) = 0 := by
    intro l
    rw [List.count_eq_zero]
    simp
  rw [List.count_append, List.count_append, hdel, List.count_map_of_injective _ _ hinj]
  by_cases hg : g ∈ existing
  · simp only [hg, if_true]
    have : List.count g ((derivedNames namespaces postfixes).filter
        (fun g => !mapGet (existing.foldl mapSet []) g)) = 0 := by
      rw [List.count_eq_zero]
      simp [mapGet, mem_foldl_mapSet, hg]
    rw [this]
    simp
  · simp only [hg, if_false]
    rw [List.count_filter]
    · simp
    · simp [mapGet, mem_foldl_mapSet, hg]

/-- C9: the code issues two create calls for one name. With the postfix list
`admins, admins` and the namespace `a`, `syncGroups` calls create for `a-admins`
twice; with namespaces `a-b`, `a` and postfixes `c`, `b-c` it calls create for
`a-b-c` twice. On the same input `createGroupsForNamespace` creates `a-admins`
once. -/
theorem syncGroups_duplicate_create :
    List.count (Call.CreateGroup "a-admins")
      (syncGroups RangeOrder.insertion directory ["a"] ["admins", "admins"] "" []).2.calls = 2 ∧
    List.count (Call.CreateGroup "a-b-c")
      (syncGroups RangeOrder.insertion directory ["a-b", "a"] ["c", "b-c"] "" []).2.calls = 2 ∧
    List.count (Call.CreateGroup "a-admins")
      (createGroupsForNamespace directory "a" ["admins", "admins"] (Run.start [])).calls = 1 := by
  refine ⟨?_, ?_, ?_⟩ <;> decide

/-! ## Bulk sync: convergence -/

/-- The directory after `syncGroups`: the derived names, and the names that were
there before except those with the prefix that are not derived. -/
theorem syncGroups_view {σ : Type} (range : RangeOrder) (client : GoCloak σ)
    (view : σ → List String) (hd : Directory client view)
    (namespaces postfixes : List String) (GroupsPrefix : String) (s : σ) (g : String) :
    g ∈ view (syncGroups range client namespaces postfixes GroupsPrefix s).2.st ↔
      g ∈ derivedNames namespaces postfixes ∨
        (g ∈ view s ∧ ¬ HasPrefix g GroupsPrefix = true) := by
  simp only [syncGroups, Run.getGroups, hd.getGroups, syncCreateLoop, Run.start]
  rw [syncDelete_view client view hd, syncOuter_view client view hd, syncOuter_fst,
    (range.keys_perm _).mem_iff]
  simp only [mem_foldl_mapSet, List.not_mem_nil, false_or]
  tauto

/-- C3: on a directory that nothing else changes and on which every create and
delete takes effect, a second `syncGroups` with the same namespaces, postfixes
and prefix, run on the state the first one left, returns no error and issues no
create and no delete call: its only call is the listing. -/
theorem syncGroups_converges {σ : Type} (first second : RangeOrder) (client : GoCloak σ)
    (view : σ → List String) (hd : Directory client view)
    (namespaces postfixes : List String) (GroupsPrefix : String) (s : σ) :
    (syncGroups second client namespaces postfixes GroupsPrefix
        (syncGroups first client namespaces postfixes GroupsPrefix s).2.st).1 = none ∧
    (syncGroups second client namespaces postfixes GroupsPrefix
        (syncGroups first client namespaces postfixes GroupsPrefix s).2.st).2.calls =
      [Call.GetGroups] ∧
    ∀ g, Call.CreateGroup g ∉
        (syncGroups second client namespaces postfixes GroupsPrefix
          (syncGroups first client namespaces postfixes GroupsPrefix s).2.st).2.calls ∧
      Call.DeleteGroup g ∉
        (syncGroups second client namespaces postfixes GroupsPrefix
          (syncGroups first client namespaces postfixes GroupsPrefix s).2.st).2.calls := by
  have hlist : (client.GetGroups
        (syncGroups first client namespaces postfixes GroupsPrefix s).2.st).1 =
      Except.ok (view (syncGroups first client namespaces postfixes GroupsPrefix s).2.st) := by
    rw [hd.getGroups]
  have hk := syncGroups_ok second client namespaces postfixes GroupsPrefix _ _ hlist
  have hcreate : (derivedNames namespaces postfixes).filter
      (fun g => !mapGet ((view (syncGroups first client namespaces postfixes
        GroupsPrefix s).2.st).foldl mapSet []) g) = [] := by
    rw [List.filter_eq_nil_iff]
    intro g hg
    simp only [mapGet, mem_foldl_mapSet, List.not_mem_nil, false_or, Bool.not_eq_true,
      Bool.not_eq_eq_eq_not, Bool.not_true, decide_eq_false_iff_not, not_not,
      Bool.not_eq_true']
    exact (syncGroups_view first client view hd namespaces postfixes GroupsPrefix s g).2
      (Or.inl hg)
  have hdelete : (second.keys ((view (syncGroups first client namespaces postfixes
        GroupsPrefix s).2.st).foldl mapSet [])).filter
      (fun g => HasPrefix g GroupsPrefix &&
        !mapGet ((derivedNames namespaces postfixes).foldl mapSet []) g) = [] := by
    rw [List.filter_eq_nil_iff]
    intro g hg
    rw [(second.keys_perm _).mem_iff, mem_foldl_mapSet] at hg
    simp only [List.not_mem_nil, false_or] at hg
    have hv := (syncGroups_view first client view hd namespaces postfixes GroupsPrefix s g).1 hg
    simp only [mapGet, mem_foldl_mapSet, List.not_mem_nil, false_or, Bool.and_eq_true,
      Bool.not_eq_true', decide_eq_false_iff_not, not_and, not_not]
    intro hp
    rcases hv with hv | ⟨_, hv⟩
    · exact hv
    · exact absurd hp hv
  rw [hcreate, hdelete] at hk
  refine ⟨hk.1, hk.2, ?_⟩
  intro g
  rw [hk.2]
  simp

/-- Two bulk syncs in a row on the directory of the specification's scenario,
the second visiting the existing map in another order. -/
theorem syncGroups_converges_witness :
    Directory directory (fun s => s) ∧
    (syncGroups RangeOrder.reversed directory ["team-a", "team-b"] ["admins", "viewers"] ""
      (syncGroups RangeOrder.insertion directory ["team-a", "team-b"] ["admins", "viewers"] ""
        ["team-a-admins", "old-prefix-stale"]).2.st).2.calls = [Call.GetGroups] :=
  ⟨directory_isDirectory,
   (syncGroups_converges RangeOrder.insertion RangeOrder.reversed directory (fun s => s)
      directory_isDirectory ["team-a", "team-b"] ["admins", "viewers"] ""
      ["team-a-admins", "old-prefix-stale"]).2.1⟩

/-! ## The per-namespace handlers -/

theorem deleteStep_calls {σ : Type} (client : GoCloak σ) (ns : String) (r : Run σ)
    (post : String) :
    (deleteStep client ns r post).calls = r.calls ++ [Call.DeleteGroup (groupName ns post)] := by
  unfold deleteStep
  rcases h : (client.DeleteGroup (groupName ns post) r.st).1 with e | v <;>
    simp [Run.deleteGroup, Run.log, h]

theorem deleteGroupsForNamespace_append {σ : Type} (client : GoCloak σ) (ns : String) :
    ∀ (postfixes : List String) (r : Run σ),
      (deleteGroupsForNamespace client ns postfixes r).calls =
        r.calls ++ postfixes.map (fun post => Call.DeleteGroup (groupName ns post)) := by
  intro postfixes
  induction postfixes with
  | nil => intro r; simp [deleteGroupsForNamespace]
  | cons p ps ih =>
    intro r
    have h := ih (deleteStep client ns r p)
    simp only [deleteGroupsForNamespace, List.foldl_cons] at h ⊢
    rw [h, deleteStep_calls]
    simp

/-- C4: whatever the client returns and whatever the state of the directory,
the calls of `deleteGroupsForNamespace` are exactly one delete of
namespace-postfix per entry of the postfix list, in list order: no create, no
listing. For `team-a` and the postfixes admins, viewers they are the delete of
`team-a-admins`, then the delete of `team-a-viewers`. -/
theorem deleteGroupsForNamespace_calls {σ : Type} (client : GoCloak σ) (ns : String)
    (postfixes : List String) (s : σ) :
    (deleteGroupsForNamespace client ns postfixes (Run.start s)).calls =
      postfixes.map (fun post => Call.DeleteGroup (groupName ns post)) ∧
    (deleteGroupsForNamespace client "team-a" ["admins", "viewers"] (Run.start s)).calls =
      [Call.DeleteGroup "team-a-admins", Call.DeleteGroup "team-a-viewers"] := by
  constructor
  · rw [deleteGroupsForNamespace_append]; rfl
  · rw [deleteGroupsForNamespace_append]
    simp only [Run.start, List.nil_append, List.map_cons, List.map_nil]
    have h1 : groupName "team-a" "admins" = "team-a-admins" := by decide
    have h2 : groupName "team-a" "viewers" = "team-a-viewers" := by decide
    rw [h1, h2]

/-- One iteration of `createGroupsForNamespace` on a directory: a listing, then a
create when the name is not there; afterwards the name is there. -/
theorem createGroupsForNamespace_cons {σ : Type} (client : GoCloak σ)
    (view : σ → List String) (hd : Directory client view) (ns post : String)
    (rest : List String) (r : Run σ) :
    ∃ r1 : Run σ,
      createGroupsForNamespace client ns (post :: rest) r =
        createGroupsForNamespace client ns rest r1 ∧
      r1.calls = r.calls ++ (Call.GetGroups ::
        if groupName ns post ∈ view r.st then [] else [Call.CreateGroup (groupName ns post)]) ∧
      ∀ g, g ∈ view r1.st ↔ g ∈ view r.st ∨ g = groupName ns post := by
  by_cases hmem : groupName ns post ∈ view r.st
  · refine ⟨{ r with calls := r.calls ++ [Call.GetGroups] }, ?_, ?_, ?_⟩
    · rw [createGroupsForNamespace]
      simp [Run.getGroups, hd.getGroups, hmem]
    · simp [hmem]
    · intro g
      constructor
      · intro h; exact Or.inl h
      · rintro (h | h)
        · exact h
        · exact h ▸ hmem
  · have hany : (view r.st).any (fun g => g == groupName ns post) = false := by
      rw [Bool.eq_false_iff]
      intro h
      rw [List.any_eq_true] at h
      obtain ⟨x, hx, hxe⟩ := h
      have : x = groupName ns post := by simpa using hxe
      exact hmem (this ▸ hx)
    rcases hc : (client.CreateGroup (groupName ns post) r.st).1 with e | v
    · refine ⟨Run.log ("failed to create group " ++ groupName ns post ++ ": " ++ e)
        (Run.createGroup client (groupName ns post)
          { r with calls := r.calls ++ [Call.GetGroups] }).2, ?_, ?_, ?_⟩
      · rw [createGroupsForNamespace]
        simp [Run.getGroups, hd.getGroups, hany, Run.createGroup, hc]
      · simp [Run.log, Run.createGroup, hmem]
      · intro g
        simp only [Run.log, Run.createGroup, hd.createGroup]
        exact or_comm
    · refine ⟨Run.log ("Created group: " ++ groupName ns post)
        (Run.createGroup client (groupName ns post)
          { r with calls := r.calls ++ [Call.GetGroups] }).2, ?_, ?_, ?_⟩
      · rw [createGroupsForNamespace]
        simp [Run.getGroups, hd.getGroups, hany, Run.createGroup, hc]
      · simp [Run.log, Run.createGroup, hmem]
      · intro g
        simp only [Run.log, Run.createGroup, hd.createGroup]
        exact or_comm

theorem createGroupsForNamespace_view {σ : Type} (client : GoCloak σ)
    (view : σ → List String) (hd : Directory client view) (ns : String) (g : String) :
    ∀ (postfixes : List String) (r : Run σ),
      g ∈ view (createGroupsForNamespace client ns postfixes r).st ↔
        g ∈ view r.st ∨ g ∈ postfixes.map (groupName ns) := by
  intro postfixes
  induction postfixes with
  | nil => intro r; simp [createGroupsForNamespace]
  | cons p ps ih =>
    intro r
    obtain ⟨r1, he, _, hv⟩ := createGroupsForNamespace_cons client view hd ns p ps r
    rw [he, ih, hv, List.map_cons, List.mem_cons]
    tauto

theorem createGroupsForNamespace_delete {σ : Type} (client : GoCloak σ)
    (view : σ → List String) (hd : Directory client view) (ns : String) (g : String) :
    ∀ (postfixes : List String) (r : Run σ),
      Call.DeleteGroup g ∈ (createGroupsForNamespace client ns postfixes r).calls ↔
        Call.DeleteGroup g ∈ r.calls := by
  intro postfixes
  induction postfixes with
  | nil => intro r; simp [createGroupsForNamespace]
  | cons p ps ih =>
    intro r
    obtain ⟨r1, he, hc, _⟩ := createGroupsForNamespace_cons client view hd ns p ps r
    rw [he, ih, hc]
    by_cases hmem : groupName ns p ∈ view r.st <;> simp [hmem]

theorem createGroupsForNamespace_count {σ : Type} (client : GoCloak σ)
    (view : σ → List String) (hd : Directory client view) (ns : String) (g : String) :
    ∀ (postfixes : List String) (r : Run σ),
      List.count (Call.CreateGroup g) (createGroupsForNamespace client ns postfixes r).calls =
        List.count (Call.CreateGroup g) r.calls +
          (if g ∈ postfixes.map (groupName ns) ∧ g ∉ view r.st then 1 else 0) := by
  intro postfixes
  induction postfixes with
  | nil => intro r; simp [createGroupsForNamespace]
  | cons p ps ih =>
    intro r
    obtain ⟨r1, he, hc, hv⟩ := createGroupsForNamespace_cons client view hd ns p ps r
    rw [he, ih, hc, List.count_append, Nat.add_assoc]
    congr 1
    by_cases hg : g = groupName ns p
    · subst hg
      by_cases hmem : groupName ns p ∈ view r.st
      · simp [hmem, hv, List.count_cons]
      · simp [hmem, hv, List.count_cons]
    · have hne2 : ¬ (groupName ns p = g) := fun h => hg h.symm
      by_cases hmem : groupName ns p ∈ view r.st
      · simp [hmem, hv, hg, List.count_cons]
      · simp [hmem, hv, hg, List.count_cons, hne2]

/-- C5: on a directory that nothing else changes, where every listing succeeds
and every create takes effect, `createGroupsForNamespace` issues exactly one
create call for each derived name namespace-postfix that the directory lacks
(also when the postfix list repeats an entry), none for any other name, and no
delete call; run again on the state it left, it issues no create and no delete
call. -/
theorem createGroupsForNamespace_creates {σ : Type} (client : GoCloak σ)
    (view : σ → List String) (hd : Directory client view) (ns : String)
    (postfixes : List String) (s : σ) :
    (∀ g, List.count (Call.CreateGroup g)
        (createGroupsForNamespace client ns postfixes (Run.start s)).calls =
      if g ∈ postfixes.map (groupName ns) ∧ g ∉ view s then 1 else 0) ∧
    (∀ g, Call.DeleteGroup g ∉
        (createGroupsForNamespace client ns postfixes (Run.start s)).calls) ∧
    (∀ g, Call.CreateGroup g ∉
        (createGroupsForNamespace client ns postfixes (Run.start
          (createGroupsForNamespace client ns postfixes (Run.start s)).st)).calls ∧
      Call.DeleteGroup g ∉
        (createGroupsForNamespace client ns postfixes (Run.start
          (createGroupsForNamespace client ns postfixes (Run.start s)).st)).calls) := by
  refine ⟨?_, ?_, ?_⟩
  · intro g
    rw [createGroupsForNamespace_count client view hd]
    simp [Run.start]
  · intro g
    rw [createGroupsForNamespace_delete client view hd]
    simp [Run.start]
  · intro g
    constructor
    · rw [← List.count_eq_zero, createGroupsForNamespace_count client view hd]
      have hin : ∀ h : g ∈ postfixes.map (groupName ns),
          g ∈ view (createGroupsForNamespace client ns postfixes (Run.start s)).st :=
        fun h => (createGroupsForNamespace_view client view hd ns g postfixes _).2 (Or.inr h)
      have hcond : ¬ (g ∈ postfixes.map (groupName ns) ∧
          g ∉ view (Run.start (createGroupsForNamespace client ns postfixes
            (Run.start s)).st).st) := fun h => h.2 (hin h.1)
      rw [if_neg hcond]
      simp [Run.start]
    · rw [createGroupsForNamespace_delete client view hd]
      simp [Run.start]

/-- A namespace added while one of its groups exists and a postfix is repeated:
one create for the missing name. -/
theorem createGroupsForNamespace_creates_witness :
    Directory directory (fun s => s) ∧
    List.count (Call.CreateGroup "team-a-admins")
      (createGroupsForNamespace directory "team-a" ["admins", "admins", "viewers"]
        (Run.start ["team-a-viewers"])).calls = 1 ∧
    List.count (Call.CreateGroup "team-a-viewers")
      (createGroupsForNamespace directory "team-a" ["admins", "admins", "viewers"]
        (Run.start ["team-a-viewers"])).calls = 0 :=
  ⟨directory_isDirectory,
   ((createGroupsForNamespace_creates directory (fun s => s) directory_isDirectory "team-a"
      ["admins", "admins", "viewers"] ["team-a-viewers"]).1 "team-a-admins").trans
      (by decide),
   ((createGroupsForNamespace_creates directory (fun s => s) directory_isDirectory "team-a"
      ["admins", "admins", "viewers"] ["team-a-viewers"]).1 "team-a-viewers").trans
      (by decide)⟩

/-! ## Group names -/

theorem append_cons_inj {α : Type} (c : α) :
    ∀ (l1 l2 r1 r2 : List α), c ∉ r1 → c ∉ r2 → l1 ++ c :: r1 = l2 ++ c :: r2 →
      l1 = l2 ∧ r1 = r2 := by
  intro l1
  induction l1 with
  | nil =>
    intro l2 r1 r2 h1 _ h
    cases l2 with
    | nil => exact ⟨rfl, by simpa using h⟩
    | cons b l2 =>
      simp only [List.nil_append, List.cons_append, List.cons.injEq] at h
      exact absurd (h.2 ▸ (by simp : c ∈ l2 ++ c :: r2)) h1
  | cons a l1 ih =>
    intro l2 r1 r2 h1 h2 h
    cases l2 with
    | nil =>
      simp only [List.nil_append, List.cons_append, List.cons.injEq] at h
      exact absurd (h.2 ▸ (by simp : c ∈ l1 ++ c :: r1)) h2
    | cons b l2 =>
      simp only [List.cons_append, List.cons.injEq] at h
      obtain ⟨e1, e2⟩ := ih l2 r1 r2 h1 h2 h.2
      exact ⟨by rw [h.1, e1], e2⟩

theorem groupName_data (ns post : String) :
    (groupName ns post).data = ns.data ++ '-' :: post.data := by
  simp [groupName, String.data_append]

/-- C10: the derivation of a group name is injective on postfixes without a
hyphen: if the postfixes `p1` and `p2` contain no `-` and the names derived from
`(n1, p1)` and `(n2, p2)` are equal, then `n1 = n2` and `p1 = p2`; the namespace
names may contain hyphens. -/
theorem groupName_injective (n1 n2 p1 p2 : String)
    (h1 : '-' ∉ p1.data) (h2 : '-' ∉ p2.data)
    (h : groupName n1 p1 = groupName n2 p2) : n1 = n2 ∧ p1 = p2 := by
  have hdata : (groupName n1 p1).data = (groupName n2 p2).data := by rw [h]
  rw [groupName_data, groupName_data] at hdata
  obtain ⟨e1, e2⟩ := append_cons_inj '-' n1.data n2.data p1.data p2.data h1 h2 hdata
  exact ⟨String.ext e1, String.ext e2⟩

/-- The namespace `team-a`, whose name has a hyphen, with the postfix `admins`. -/
theorem groupName_injective_witness :
    '-' ∉ "admins".data ∧ groupName "team-a" "admins" = groupName "team-a" "admins" ∧
      ("team-a" = "team-a" ∧ "admins" = "admins") :=
  ⟨by decide, rfl,
   groupName_injective "team-a" "team-a" "admins" "admins" (by decide) (by decide) rfl⟩

/-- A postfix with a hyphen breaks injectivity: `a-b` with `c`, and `a` with
`b-c`, derive the same name. -/
theorem groupName_collision : groupName "a-b" "c" = groupName "a" "b-c" := by decide

/-! ## Namespaces: the listing and the watch -/

theorem filterLoop_eq (regex : String → Bool) :
    ∀ (items : List Namespace) (acc : List String),
      items.foldl (fun namespaces ns =>
          if regex ns.Name then namespaces ++ [ns.Name] else namespaces) acc =
        acc ++ (items.map Namespace.Name).filter regex := by
  intro items
  induction items with
  | nil => intro acc; simp
  | cons n ns ih =>
    intro acc
    rw [List.foldl_cons, ih, List.map_cons, List.filter_cons]
    by_cases h : regex n.Name = true <;> simp [h]

/-- C7: when the filter pattern does not compile, `getNamespaces` returns an
error and makes no call on the clientset, whose state is untouched; when it
compiles and the listing succeeds, `getNamespaces` returns the names of the
listed namespaces that match, in the order of the listing. -/
theorem getNamespaces_spec {κ : Type} (Compile : String → Except String (String → Bool))
    (clientset : Clientset κ) (filter : String) (k : κ) :
    (∀ err, Compile filter = Except.error err →
      (getNamespaces Compile clientset filter k).1 =
          Except.error ("invalid filter regex: " ++ err) ∧
        (getNamespaces Compile clientset filter k).2.1 = [] ∧
        (getNamespaces Compile clientset filter k).2.2 = k) ∧
    (∀ regex items, Compile filter = Except.ok regex →
      (clientset.NamespacesList k).1 = Except.ok items →
      (getNamespaces Compile clientset filter k).1 =
        Except.ok ((items.map Namespace.Name).filter regex)) := by
  constructor
  · intro err h
    simp [getNamespaces, h]
  · intro regex items h hl
    rcases hk : clientset.NamespacesList k with ⟨res, k1⟩
    rw [hk] at hl
    simp only at hl
    subst hl
    simp [getNamespaces, h, hk, filterLoop_eq]

/-- The pattern `(` is refused before the cluster is asked anything; the pattern
`team` keeps `team-a` and `team-b`, in listing order, and drops `prod`. -/
theorem getNamespaces_spec_witness :
    ((getNamespaces literalCompile cluster "("
        [⟨"team-b", []⟩, ⟨"prod", []⟩, ⟨"team-a", []⟩]).1 =
      Except.error ("invalid filter regex: " ++ "error parsing regexp: (") ∧
     (getNamespaces literalCompile cluster "("
        [⟨"team-b", []⟩, ⟨"prod", []⟩, ⟨"team-a", []⟩]).2.1 = []) ∧
    (getNamespaces literalCompile cluster "team"
        [⟨"team-b", []⟩, ⟨"prod", []⟩, ⟨"team-a", []⟩]).1 =
      Except.ok ["team-b", "team-a"] :=
  ⟨⟨((getNamespaces_spec literalCompile cluster "("
        [⟨"team-b", []⟩, ⟨"prod", []⟩, ⟨"team-a", []⟩]).1 "error parsing regexp: (" rfl).1,
    ((getNamespaces_spec literalCompile cluster "("
        [⟨"team-b", []⟩, ⟨"prod", []⟩, ⟨"team-a", []⟩]).1 "error parsing regexp: (" rfl).2.1⟩,
   ((getNamespaces_spec literalCompile cluster "team"
        [⟨"team-b", []⟩, ⟨"prod", []⟩, ⟨"team-a", []⟩]).2
      (fun s => containsSub "team".data s.data) _ rfl rfl).trans (by rfl)⟩

/-- C8: the event loop does not apply the filter expression to namespace names.
With the filter `team`, the namespace `prod` labelled `team` does not pass
`getNamespaces`, yet the watch, which is given the filter as a label selector,
delivers its `Added` event and `watchNamespaces` creates `prod-admins`. -/
theorem watchNamespaces_ignores_filter :
    (getNamespaces literalCompile cluster "team" [⟨"prod", [("team", "payments")]⟩]).1 =
      Except.ok [] ∧
    (watchNamespaces cluster "team" ["admins"] directory
        [⟨"prod", [("team", "payments")]⟩] []).2 = [KubeCall.Watch "team"] ∧
    watchedCalls (watchNamespaces cluster "team" ["admins"] directory
        [⟨"prod", [("team", "payments")]⟩] []) =
      some [Call.GetGroups, Call.CreateGroup "prod-admins"] := by
  refine ⟨?_, ?_, ?_⟩
  · rfl
  · decide
  · decide

end SyncKK
